import Mathlib

/-!
Shallow embedding of the resolver layer of the `otus-vue/graphql-server`
repository (`src/index.js`, with the websocket variant in
`src/unnamed/part_000` sharing the same resolver code).

Modelling conventions:
* The three in-memory collections (`users`, `posts`, `comments`) form a
  `Store`.  JavaScript mutates the stored objects in place; here every
  resolver that writes a data field is a state transformer
  `Store → result × Store`.
* Ids are modelled as `Nat` (the source compares with loose `==`; no
  claim depends on string/number coercion).
* Function-valued properties attached to entities (`avatar`, `author`,
  `comments`, `post` thunks) carry no data; they are modelled as fields
  of "resolved" view structures or as standalone resolution functions.
  The only decoration that writes a data field is the post `image`
  assignment, which is modelled as a genuine store update.
* `new Date().toString()` is nondeterministic, so mutations take the
  timestamp as an explicit `now : String` argument.
* The comment-author thunk reads `post.authorId` on a possibly-undefined
  parent; this fallible step is modelled with `Except String`.
-/

/-- A stored user record (`data/users`): id, name, email. -/
structure User where
  id : Nat
  name : String
  email : String
deriving DecidableEq, Repr

/-- A stored post record (`data/posts` / `addPost`): the optional `image`
models the optional `PostInput.image` / a missing field. -/
structure Post where
  id : Nat
  title : String
  text : String
  authorId : Nat
  image : Option String
  createdAt : String
deriving DecidableEq, Repr

/-- A stored comment record (`data/comments` / `addComment`). -/
structure Comment where
  id : Nat
  text : String
  authorId : Nat
  postId : Nat
  createdAt : String
deriving DecidableEq, Repr

/-- The Data Store: the three in-memory collections. -/
structure Store where
  users : List User
  posts : List Post
  comments : List Comment
deriving DecidableEq, Repr

/-- The `AvatarSizes` enum of the schema. -/
inductive AvatarSizes where
  | S_32 | S_64 | S_128 | S_512
deriving DecidableEq, Repr

/-- The GraphQL enum value name, as the resolver receives it. -/
def AvatarSizes.valueName : AvatarSizes → String
  | .S_32 => "S_32"
  | .S_64 => "S_64"
  | .S_128 => "S_128"
  | .S_512 => "S_512"

/-- The schema default for `avatar(size: AvatarSizes = S_128)`. -/
def avatarDefaultSize : AvatarSizes := .S_128

/-- The avatar resolver attached in `root.user` / `root.users`:
`({size}) => 'https://picsum.photos/' + size.substr(2)`. -/
def avatarFn (size : AvatarSizes) : String :=
  "https://picsum.photos/" ++ (size.valueName.drop 2)

/-- A user as returned to the GraphQL engine: the data record plus the
attached `avatar` resolver function. -/
structure ResolvedUser where
  user : User
  avatar : AvatarSizes → String

/-- `root.user({id})`: linear scan by id; on a hit the avatar resolver is
attached.  No data field of the store is written. -/
def rootUser (id : Nat) (s : Store) : Option ResolvedUser :=
  (s.users.find? (fun u => u.id == id)).map (fun u => ⟨u, avatarFn⟩)

/-- `root.users()`: every user, each with the avatar resolver attached. -/
def rootUsers (s : Store) : List ResolvedUser :=
  s.users.map (fun u => ⟨u, avatarFn⟩)

/-- The fixed fallback image URL used by `root.post` / `root.posts`. -/
def fallbackImage : String := "https://picsum.photos/600/400"

/-- The in-place write `post['image'] = 'https://picsum.photos/600/400'`
performed by `root.post` on the found post. -/
def forceImage (p : Post) : Post := { p with image := some fallbackImage }

/-- JavaScript `post.image || fallback`: `undefined`/`null`/`""` are
falsy, any other string is kept. -/
def defaultImage (img : Option String) : Option String :=
  match img with
  | none => some fallbackImage
  | some t => if t = "" then some fallbackImage else some t

/-- The in-place write `post['image'] = post.image || fallback`
performed by `root.posts` on every post. -/
def softImage (p : Post) : Post := { p with image := defaultImage p.image }

/-- Mutation of the first list element satisfying `pred` (JS `find`
returns the stored object and the caller mutates it in place). -/
def setFirst {α : Type} (pred : α → Bool) (f : α → α) : List α → List α
  | [] => []
  | a :: t => if pred a then f a :: t else a :: setFirst pred f t

/-- `root.post({id})`: finds the post, overwrites its `image` with the
fixed fallback URL (an in-place write that persists in the store), and
returns the (mutated) record.  The `author` / `comments` thunks carry no
data; their resolution functions are `postAuthor` / `postComments`
below. -/
def rootPost (id : Nat) (s : Store) : Option Post × Store :=
  match s.posts.find? (fun p => p.id == id) with
  | none => (none, s)
  | some p =>
      (some (forceImage p),
       { s with posts := setFirst (fun q => q.id == id) forceImage s.posts })

/-- The `author` thunk attached by `root.post` / `root.posts`:
`() => root.user({id: post.authorId})`. -/
def postAuthor (p : Post) (s : Store) : Option ResolvedUser :=
  rootUser p.authorId s

/-- `root.posts()`: every post, `image` defaulted only when falsy; the
writes are in place, so the returned list and the updated store
coincide. -/
def rootPosts (s : Store) : List Post × Store :=
  (s.posts.map softImage, { s with posts := s.posts.map softImage })

/-- A comment as returned by `root.comments`: the data record plus the
captured parent (`const post = root.post({id: postId})`), which the
`post` and `author` thunks close over.  The parent may be `none` when no
post matches the requested postId. -/
structure ResolvedComment where
  comment : Comment
  parent : Option Post
deriving DecidableEq, Repr

/-- The `author` thunk attached by `root.comments`:
`() => root.user({id: post.authorId})`.  When the captured parent post
is undefined, reading `.authorId` raises a TypeError. -/
def commentAuthor (rc : ResolvedComment) (s : Store) :
    Except String (Option ResolvedUser) :=
  match rc.parent with
  | none => .error "TypeError: cannot read authorId of undefined"
  | some p => .ok (rootUser p.authorId s)

/-- The body of the `map` in `root.comments`: each iteration calls
`root.post({id: postId})` eagerly (threading its store mutation) and
pairs the comment with the captured parent. -/
def commentsGo (postId : Nat) : List Comment → Store → List ResolvedComment × Store
  | [], s => ([], s)
  | c :: rest, s =>
      let r := rootPost postId s
      let others := commentsGo postId rest r.2
      (⟨c, r.1⟩ :: others.1, others.2)

/-- `root.comments({postId})`: filter the comments by postId, then map,
attaching the captured parent post to each. -/
def rootComments (postId : Nat) (s : Store) : List ResolvedComment × Store :=
  commentsGo postId (s.comments.filter (fun c => c.postId == postId)) s

/-- The `CommentInput` input type of the schema. -/
structure CommentInput where
  authorId : Nat
  postId : Nat
  text : String
deriving DecidableEq, Repr

/-- The `PostInput` input type of the schema. -/
structure PostInput where
  authorId : Nat
  title : String
  text : String
  image : Option String
deriving DecidableEq, Repr

/-- `root.addComment`: builds the new comment with
`id = comments.length + 1`, appends it, then re-fetches it through
`root.comments({postId}).find(c => c.id == newComment.id)`. -/
def addComment (inp : CommentInput) (now : String) (s : Store) :
    Option ResolvedComment × Store :=
  let newComment : Comment :=
    { id := s.comments.length + 1, text := inp.text, authorId := inp.authorId
      postId := inp.postId, createdAt := now }
  let s1 : Store := { s with comments := s.comments ++ [newComment] }
  let r := rootComments inp.postId s1
  (r.1.find? (fun rc => rc.comment.id == newComment.id), r.2)

/-- `root.addPost`: builds the new post with `id = posts.length + 1`,
appends it, then returns `root.post({id: newPost.id})` (which forces the
image of the found post). -/
def addPost (inp : PostInput) (now : String) (s : Store) :
    Option Post × Store :=
  let newPost : Post :=
    { id := s.posts.length + 1, title := inp.title, text := inp.text
      authorId := inp.authorId, image := inp.image, createdAt := now }
  let s1 : Store := { s with posts := s.posts ++ [newPost] }
  rootPost newPost.id s1

/-- Executable substring test: does `needle` start `hay`? -/
def startsWithChars : List Char → List Char → Bool
  | _, [] => true
  | [], _ :: _ => false
  | a :: as, b :: bs => a == b && startsWithChars as bs

/-- Executable substring test: does `needle` occur anywhere in `hay`? -/
def hasSubstr : List Char → List Char → Bool
  | [], needle => needle.isEmpty
  | h :: t, needle => startsWithChars (h :: t) needle || hasSubstr t needle

/-- `needle` occurs as a contiguous substring of `hay`. -/
@[reducible] def strContains (hay needle : String) : Prop :=
  hasSubstr hay.data needle.data = true

/-! ### Helper lemmas about the list-mutation primitives -/

/-- Two posts agreeing on every persisted field except possibly `image`. -/
def sameExceptImage (p q : Post) : Prop :=
  p.id = q.id ∧ p.title = q.title ∧ p.text = q.text
    ∧ p.authorId = q.authorId ∧ p.createdAt = q.createdAt

theorem sameExceptImage_refl (p : Post) : sameExceptImage p p :=
  ⟨rfl, rfl, rfl, rfl, rfl⟩

theorem sameExceptImage_trans {p q r : Post}
    (h₁ : sameExceptImage p q) (h₂ : sameExceptImage q r) : sameExceptImage p r :=
  ⟨h₁.1.trans h₂.1, h₁.2.1.trans h₂.2.1, h₁.2.2.1.trans h₂.2.2.1,
   h₁.2.2.2.1.trans h₂.2.2.2.1, h₁.2.2.2.2.trans h₂.2.2.2.2⟩

theorem forall₂_sameExceptImage_trans {l₁ l₂ l₃ : List Post}
    (h₁ : List.Forall₂ sameExceptImage l₁ l₂) (h₂ : List.Forall₂ sameExceptImage l₂ l₃) :
    List.Forall₂ sameExceptImage l₁ l₃ := by
  induction h₁ generalizing l₃ with
  | nil => cases h₂; exact .nil
  | cons hab _ ih =>
      cases h₂ with
      | cons hbc htail => exact .cons (sameExceptImage_trans hab hbc) (ih htail)

theorem setFirst_length {α : Type} (pred : α → Bool) (f : α → α) (l : List α) :
    (setFirst pred f l).length = l.length := by
  induction l with
  | nil => rfl
  | cons a t ih =>
      simp only [setFirst]
      by_cases h : pred a = true
      · simp [h]
      · simp [h, ih]

theorem setFirst_map {α β : Type} (pred : α → Bool) (f : α → α) (g : α → β)
    (hg : ∀ a, g (f a) = g a) (l : List α) :
    (setFirst pred f l).map g = l.map g := by
  induction l with
  | nil => rfl
  | cons a t ih =>
      simp only [setFirst]
      by_cases h : pred a = true
      · simp [h, hg]
      · simp [h, ih]

theorem forall₂_refl_of {α : Type} (R : α → α → Prop) (hrefl : ∀ a, R a a)
    (l : List α) : List.Forall₂ R l l := by
  induction l with
  | nil => exact .nil
  | cons a t ih => exact .cons (hrefl a) ih

theorem forall₂_setFirst {α : Type} (R : α → α → Prop) (pred : α → Bool) (f : α → α)
    (hrefl : ∀ a, R a a) (hf : ∀ a, R a (f a)) (l : List α) :
    List.Forall₂ R l (setFirst pred f l) := by
  induction l with
  | nil => exact .nil
  | cons a t ih =>
      simp only [setFirst]
      by_cases h : pred a = true
      · simp only [h, if_true]
        exact .cons (hf a) (forall₂_refl_of R hrefl t)
      · simp only [h, if_false]
        exact .cons (hrefl a) ih

theorem find?_append_of_none {α : Type} (pred : α → Bool) (l₁ l₂ : List α)
    (h : l₁.find? pred = none) : (l₁ ++ l₂).find? pred = l₂.find? pred := by
  induction l₁ with
  | nil => rfl
  | cons a t ih =>
      simp only [List.find?] at h ⊢
      cases hp : pred a with
      | true => simp [hp] at h
      | false =>
          simp only [hp] at h ⊢
          exact ih h

theorem find?_setFirst {α : Type} (pred : α → Bool) (f : α → α) (l : List α) (p : α)
    (h : l.find? pred = some p) (hf : pred (f p) = true) :
    (setFirst pred f l).find? pred = some (f p) := by
  induction l with
  | nil => simp [List.find?] at h
  | cons a t ih =>
      simp only [List.find?, setFirst] at h ⊢
      cases hp : pred a with
      | true =>
          simp only [hp, if_true] at h ⊢
          cases h
          simp [List.find?, hf]
      | false =>
          simp only [hp, if_false] at h ⊢
          simp [List.find?, hp, ih h]

theorem setFirst_setFirst {α : Type} (pred : α → Bool) (f : α → α) (l : List α) (p : α)
    (h : l.find? pred = some p) (hf : pred (f p) = true) (hff : f (f p) = f p) :
    setFirst pred f (setFirst pred f l) = setFirst pred f l := by
  induction l with
  | nil => rfl
  | cons a t ih =>
      simp only [List.find?, setFirst] at h ⊢
      cases hp : pred a with
      | true =>
          simp only [hp, if_true] at h ⊢
          cases h
          simp [setFirst, hf, hff]
      | false =>
          simp only [hp, if_false] at h ⊢
          simp [setFirst, hp, ih h]

theorem mem_setFirst {α : Type} (pred : α → Bool) (f : α → α) (l : List α) (p : α)
    (h : l.find? pred = some p) : f p ∈ setFirst pred f l := by
  induction l with
  | nil => simp [List.find?] at h
  | cons a t ih =>
      simp only [List.find?, setFirst] at h ⊢
      cases hp : pred a with
      | true =>
          simp only [hp, if_true] at h ⊢
          cases h
          exact List.mem_cons_self _ _
      | false =>
          simp only [hp, if_false] at h ⊢
          exact List.mem_cons_of_mem _ (ih h)

theorem find?_eq_of_mem_of_nodup {α : Type} (k : α → Nat) (id : Nat) (l : List α) (a : α)
    (hnd : (l.map k).Nodup) (hmem : a ∈ l) (hk : k a = id) :
    l.find? (fun x => k x == id) = some a := by
  induction l with
  | nil => simp at hmem
  | cons b t ih =>
      simp only [List.map_cons, List.nodup_cons] at hnd
      rcases List.mem_cons.mp hmem with rfl | hmem'
      · simp [List.find?, hk]
      · have hne : k b ≠ id := by
          intro hb
          exact hnd.1 (hb ▸ hk ▸ List.mem_map_of_mem k hmem')
        simp only [List.find?, beq_eq_false_iff_ne.mpr hne]
        exact ih hnd.2 hmem'

/-! ### Facts about the resolvers -/

theorem forceImage_id (p : Post) : (forceImage p).id = p.id := rfl

theorem forceImage_idem (p : Post) : forceImage (forceImage p) = forceImage p := rfl

theorem forceImage_sameExceptImage (p : Post) : sameExceptImage p (forceImage p) :=
  ⟨rfl, rfl, rfl, rfl, rfl⟩

theorem softImage_sameExceptImage (p : Post) : sameExceptImage p (softImage p) :=
  ⟨rfl, rfl, rfl, rfl, rfl⟩

theorem rootPost_users (id : Nat) (s : Store) : (rootPost id s).2.users = s.users := by
  unfold rootPost
  cases s.posts.find? (fun p => p.id == id) <;> rfl

theorem rootPost_comments (id : Nat) (s : Store) :
    (rootPost id s).2.comments = s.comments := by
  unfold rootPost
  cases s.posts.find? (fun p => p.id == id) <;> rfl

theorem rootPost_posts_forall₂ (id : Nat) (s : Store) :
    List.Forall₂ sameExceptImage s.posts (rootPost id s).2.posts := by
  unfold rootPost
  cases s.posts.find? (fun p => p.id == id) with
  | none => exact forall₂_refl_of _ sameExceptImage_refl _
  | some p =>
      exact forall₂_setFirst _ _ _ sameExceptImage_refl forceImage_sameExceptImage _

theorem rootPost_idem (id : Nat) (s : Store) :
    rootPost id (rootPost id s).2 = rootPost id s := by
  unfold rootPost
  cases hfind : s.posts.find? (fun p => p.id == id) with
  | none => simp [hfind]
  | some p =>
      have hpred := List.find?_some hfind
      simp only
      rw [find?_setFirst _ _ _ _ hfind hpred]
      simp only [forceImage_idem]
      rw [setFirst_setFirst _ _ _ _ hfind hpred (forceImage_idem p)]

theorem commentsGo_fst_map (pid : Nat) (l : List Comment) (s : Store) :
    ((commentsGo pid l s).1).map ResolvedComment.comment = l := by
  induction l generalizing s with
  | nil => rfl
  | cons c rest ih => simp [commentsGo, ih]

theorem commentsGo_users (pid : Nat) (l : List Comment) (s : Store) :
    (commentsGo pid l s).2.users = s.users := by
  induction l generalizing s with
  | nil => rfl
  | cons c rest ih => simp [commentsGo, ih, rootPost_users]

theorem commentsGo_comments (pid : Nat) (l : List Comment) (s : Store) :
    (commentsGo pid l s).2.comments = s.comments := by
  induction l generalizing s with
  | nil => rfl
  | cons c rest ih => simp [commentsGo, ih, rootPost_comments]

theorem commentsGo_posts_forall₂ (pid : Nat) (l : List Comment) (s : Store) :
    List.Forall₂ sameExceptImage s.posts (commentsGo pid l s).2.posts := by
  induction l generalizing s with
  | nil => exact forall₂_refl_of _ sameExceptImage_refl _
  | cons c rest ih =>
      simp only [commentsGo]
      exact forall₂_sameExceptImage_trans (rootPost_posts_forall₂ pid s)
        (ih (rootPost pid s).2)

theorem commentsGo_parent (pid : Nat) (l : List Comment) (s : Store)
    (rc : ResolvedComment) (h : rc ∈ (commentsGo pid l s).1) :
    rc.parent = (rootPost pid s).1 := by
  induction l generalizing s with
  | nil => simp [commentsGo] at h
  | cons c rest ih =>
      simp only [commentsGo, List.mem_cons] at h
      rcases h with rfl | hmem
      · rfl
      · have := ih (rootPost pid s).2 hmem
        rwa [rootPost_idem] at this

/-! ### Concrete fixtures -/

/-- Fixture user with id 1. -/
def uA : User := ⟨1, "alice", "alice@example.com"⟩

/-- Fixture user with id 7 (author of the fixture post). -/
def uB : User := ⟨7, "bob", "bob@example.com"⟩

/-- Fixture user with id 3 (author of the fixture comment). -/
def uC : User := ⟨3, "carol", "carol@example.com"⟩

/-- Fixture post with a custom, non-empty image. -/
def pCustom : Post := ⟨1, "hello", "body", 7, some "custom.png", "d1"⟩

/-- Fixture comment on post 1; its own authorId (3) differs from the
post's authorId (7). -/
def cOne : Comment := ⟨1, "nice", 3, 1, "d2"⟩

/-- Fixture comment whose postId (5) matches no stored post. -/
def cOrphan : Comment := ⟨1, "lost", 3, 5, "d3"⟩

/-- Fixture store with three users, one post, one comment. -/
def storeA : Store := ⟨[uA, uB, uC], [pCustom], [cOne]⟩

/-- Fixture store holding a comment whose parent post is missing. -/
def storeOrphan : Store := ⟨[uA], [pCustom], [cOrphan]⟩

/-- Seed post for the §8 scenario: id 1, authorId 1, no image. -/
def pSeed : Post := ⟨1, "t", "x", 1, none, "d"⟩

/-- The §8 scenario seed: 1 user (id 1), 1 post (id 1, authorId 1),
0 comments. -/
def seedStore : Store := ⟨[uA], [pSeed], []⟩

/-! ### Claim theorems -/

/-- Claim C8: for every postId, `comments(postId)` returns exactly the
stored comments whose postId field matches the argument — the underlying
records of the returned list are precisely the filter of the store. -/
theorem c8_comments_exactly_matching (s : Store) (pid : Nat) :
    ((rootComments pid s).1).map ResolvedComment.comment
      = s.comments.filter (fun c => c.postId == pid) := by
  unfold rootComments
  exact commentsGo_fst_map pid _ s

/-- Claim C10: with a stored comment whose postId (5) matches no stored
post, `comments(5)` still returns that comment (with an undefined
captured parent), and resolving its author field raises a TypeError
instead of returning null. -/
theorem c10_orphan_author_raises :
    storeOrphan.posts.find? (fun p => p.id == 5) = none
    ∧ (rootComments 5 storeOrphan).1 = [⟨cOrphan, none⟩]
    ∧ commentAuthor ⟨cOrphan, none⟩ storeOrphan
        = .error "TypeError: cannot read authorId of undefined" :=
  ⟨by decide, by decide, rfl⟩

/-- Claim C3, counterexample: query resolution is not read-only —
`post(1)` on a store whose post has image "custom.png" overwrites that
stored image with the fallback URL, and the change persists in the
store. -/
theorem c3_counterexample :
    storeA.posts.map Post.image = [some "custom.png"]
    ∧ (rootPost 1 storeA).2.posts.map Post.image = [some fallbackImage]
    ∧ (some fallbackImage : Option String) ≠ some "custom.png" := by
  refine ⟨by decide, by decide, by decide⟩

/-- Claim C3, amended: query resolvers never change users or comments,
and change posts at most in the `image` field (`post(id)` forces the
found post's image, `posts()` defaults falsy images, `comments(postId)`
forces the parent post's image); `user(id)` / `users()` return the
stored user records unchanged. -/
theorem c3_amended_frame (s : Store) (id pid : Nat) :
    (rootPost id s).2.users = s.users
    ∧ (rootPost id s).2.comments = s.comments
    ∧ List.Forall₂ sameExceptImage s.posts (rootPost id s).2.posts
    ∧ (rootPosts s).2.users = s.users
    ∧ (rootPosts s).2.comments = s.comments
    ∧ List.Forall₂ sameExceptImage s.posts (rootPosts s).2.posts
    ∧ (rootComments pid s).2.users = s.users
    ∧ (rootComments pid s).2.comments = s.comments
    ∧ List.Forall₂ sameExceptImage s.posts (rootComments pid s).2.posts
    ∧ (rootUsers s).map ResolvedUser.user = s.users := by
  have hmapsoft : List.Forall₂ sameExceptImage s.posts (s.posts.map softImage) := by
    induction s.posts with
    | nil => exact .nil
    | cons a t ih => exact .cons (softImage_sameExceptImage a) ih
  have husers : (rootUsers s).map ResolvedUser.user = s.users := by
    unfold rootUsers
    rw [List.map_map]
    exact List.map_id s.users
  exact ⟨rootPost_users id s, rootPost_comments id s, rootPost_posts_forall₂ id s,
    rfl, rfl, hmapsoft,
    commentsGo_users pid _ s, commentsGo_comments pid _ s,
    commentsGo_posts_forall₂ pid _ s, husers⟩

/-- Claim C5: image-fallback asymmetry — a stored post with a non-empty
image passes through `posts()` unchanged (the default applies only to a
falsy image), while `post(id)` returns its post with the image replaced
by the fixed fallback URL unconditionally. -/
theorem c5_image_asymmetry (s : Store) (id : Nat) (p : Post) (t : String)
    (hmem : p ∈ s.posts) (himg : p.image = some t) (hne : t ≠ "") :
    softImage p = p
    ∧ p ∈ (rootPosts s).1
    ∧ (∀ q, (rootPost id s).1 = some q → q.image = some fallbackImage) := by
  have hsoft : softImage p = p := by
    cases p with
    | mk pid ptitle ptext pauthor pimage pcreated =>
        simp only [Post.mk.injEq] at himg ⊢
        simp [softImage, defaultImage, himg, hne]
  refine ⟨hsoft, ?_, ?_⟩
  · have hm : softImage p ∈ s.posts.map softImage := List.mem_map_of_mem _ hmem
    rw [hsoft] at hm
    exact hm
  · intro q hq
    unfold rootPost at hq
    cases hfind : s.posts.find? (fun r => r.id == id) with
    | none => rw [hfind] at hq; simp at hq
    | some r =>
        rw [hfind] at hq
        simp only [Option.some.injEq] at hq
        rw [← hq]
        rfl

/-- Claim C5, witness: in the fixture store the post with image
"custom.png" survives `posts()` unchanged while `post(1)` forces the
fallback image. -/
theorem c5_witness :
    softImage pCustom = pCustom
    ∧ pCustom ∈ (rootPosts storeA).1
    ∧ (forceImage pCustom).image = some fallbackImage := by
  have h := c5_image_asymmetry storeA 1 pCustom "custom.png"
    (by decide) (by decide) (by decide)
  exact ⟨h.1, h.2.1, h.2.2 (forceImage pCustom) (by decide)⟩

/-- Claim C9: any user returned by `user(id)` or `users()` carries the
avatar resolver; it yields a URL containing "512" for `S_512` and a URL
containing "128" for the schema default size. -/
theorem c9_avatar_urls (s : Store) (id : Nat) (ru : ResolvedUser)
    (h : rootUser id s = some ru ∨ ru ∈ rootUsers s) :
    strContains (ru.avatar .S_512) "512"
    ∧ strContains (ru.avatar avatarDefaultSize) "128" := by
  have hav : ru.avatar = avatarFn := by
    rcases h with h | h
    · unfold rootUser at h
      rcases Option.map_eq_some'.mp h with ⟨u, _, rfl⟩
      rfl
    · unfold rootUsers at h
      rcases List.mem_map.mp h with ⟨u, _, rfl⟩
      rfl
  rw [hav]
  exact ⟨by decide, by decide⟩

/-- Claim C9, witness: the user returned by `user(7)` on the fixture
store resolves `avatar(S_512)` and the default size to URLs containing
"512" and "128" respectively. -/
theorem c9_witness :
    strContains ((ResolvedUser.mk uB avatarFn).avatar .S_512) "512"
    ∧ strContains ((ResolvedUser.mk uB avatarFn).avatar avatarDefaultSize) "128" :=
  c9_avatar_urls storeA 7 ⟨uB, avatarFn⟩ (.inl (by rfl))

/-- Claim C4: every comment returned by `comments(postId)` whose parent
post exists resolves its author field as `user(p.authorId)` for the
parent post `p` found by postId, independently of the comment's own
authorId. -/
theorem c4_author_from_post (s : Store) (pid : Nat) (rc : ResolvedComment)
    (p : Post) (hmem : rc ∈ (rootComments pid s).1)
    (hp : (rootPost pid s).1 = some p) :
    rc.parent = some p
    ∧ ∀ s₂, commentAuthor rc s₂ = .ok (rootUser p.authorId s₂) := by
  have hpar : rc.parent = (rootPost pid s).1 := by
    unfold rootComments at hmem
    exact commentsGo_parent pid _ s rc hmem
  rw [hp] at hpar
  refine ⟨hpar, fun s₂ => ?_⟩
  unfold commentAuthor
  rw [hpar]

/-- Claim C4, witness: in the fixture store the resolved comment on post
1 (comment authorId 3) resolves its author via the post's authorId 7,
not its own. -/
theorem c4_witness :
    (ResolvedComment.mk cOne (some (forceImage pCustom))).parent
        = some (forceImage pCustom)
    ∧ commentAuthor ⟨cOne, some (forceImage pCustom)⟩ storeA
        = .ok (rootUser (forceImage pCustom).authorId storeA)
    ∧ (forceImage pCustom).authorId = 7 ∧ cOne.authorId = 3 := by
  have h := c4_author_from_post storeA 1 ⟨cOne, some (forceImage pCustom)⟩
    (forceImage pCustom) (by decide) (by decide)
  exact ⟨h.1, h.2 storeA, by decide, by decide⟩

/-- Claim C2: under unique ids, `user(id)` / `post(id)` return exactly
the stored entity whose id field equals the requested id (the post comes
back as the in-place-decorated store entity), and for an id matching no
stored entity they return null — the resolvers are total, so no error is
ever raised. -/
theorem c2_lookup_hit_miss (s : Store) (id : Nat)
    (hu : (s.users.map User.id).Nodup) (hp : (s.posts.map Post.id).Nodup) :
    (∀ u ∈ s.users, u.id = id → rootUser id s = some ⟨u, avatarFn⟩)
    ∧ ((∀ u ∈ s.users, u.id ≠ id) → rootUser id s = none)
    ∧ (∀ p ∈ s.posts, p.id = id →
        (rootPost id s).1 = some (forceImage p)
        ∧ forceImage p ∈ (rootPost id s).2.posts
        ∧ (forceImage p).id = id)
    ∧ ((∀ p ∈ s.posts, p.id ≠ id) → rootPost id s = (none, s)) := by
  refine ⟨?_, ?_, ?_, ?_⟩
  · intro u hmem hid
    unfold rootUser
    rw [find?_eq_of_mem_of_nodup User.id id s.users u hu hmem hid]
    rfl
  · intro hne
    unfold rootUser
    rw [List.find?_eq_none.mpr (fun u hu' => by simp [hne u hu'])]
    rfl
  · intro p hmem hid
    have hfind : s.posts.find? (fun q => q.id == id) = some p :=
      find?_eq_of_mem_of_nodup Post.id id s.posts p hp hmem hid
    constructor
    · unfold rootPost
      rw [hfind]
    constructor
    · unfold rootPost
      rw [hfind]
      exact mem_setFirst _ _ _ _ hfind
    · show p.id = id
      exact hid
  · intro hne
    unfold rootPost
    rw [List.find?_eq_none.mpr (fun p hp' => by simp [hne p hp'])]

/-- Claim C2, witness: on the fixture store, `user(7)` returns the
stored user 7, `user(99)` returns null, `post(1)` returns the stored
(decorated) post 1, and `post(99)` returns null leaving the store
untouched. -/
theorem c2_witness :
    rootUser 7 storeA = some ⟨uB, avatarFn⟩
    ∧ rootUser 99 storeA = none
    ∧ (rootPost 1 storeA).1 = some (forceImage pCustom)
    ∧ rootPost 99 storeA = (none, storeA) := by
  have h7 := c2_lookup_hit_miss storeA 7 (by decide) (by decide)
  have h99 := c2_lookup_hit_miss storeA 99 (by decide) (by decide)
  have h1 := c2_lookup_hit_miss storeA 1 (by decide) (by decide)
  exact ⟨h7.1 uB (by decide) rfl, h99.2.1 (by decide),
    (h1.2.2.1 pCustom (by decide) rfl).1, h99.2.2.2 (by decide)⟩

theorem rootPost_posts_map_id (id : Nat) (s : Store) :
    (rootPost id s).2.posts.map Post.id = s.posts.map Post.id := by
  unfold rootPost
  cases s.posts.find? (fun p => p.id == id) with
  | none => rfl
  | some p => exact setFirst_map _ _ _ forceImage_id s.posts

/-- Claim C6: both mutations assign the new entity the id
count-at-creation + 1 — after `addPost` the stored post ids are the old
ones followed by `posts.length + 1`, and after `addComment` the stored
comment ids are the old ones followed by `comments.length + 1`. -/
theorem c6_sequential_ids (s : Store) (pi : PostInput) (ci : CommentInput)
    (now₁ now₂ : String) :
    (addPost pi now₁ s).2.posts.map Post.id
      = s.posts.map Post.id ++ [s.posts.length + 1]
    ∧ (addComment ci now₂ s).2.comments.map Comment.id
      = s.comments.map Comment.id ++ [s.comments.length + 1] := by
  constructor
  · show (rootPost (s.posts.length + 1)
        { s with posts := s.posts ++ [⟨s.posts.length + 1, pi.title, pi.text,
            pi.authorId, pi.image, now₁⟩] }).2.posts.map Post.id = _
    rw [rootPost_posts_map_id]
    simp
  · show (rootComments ci.postId
        { s with comments := s.comments ++ [⟨s.comments.length + 1, ci.text,
            ci.authorId, ci.postId, now₂⟩] }).2.comments.map Comment.id = _
    unfold rootComments
    rw [commentsGo_comments]
    simp

theorem rootPost_of_find? (id : Nat) (s : Store) (p : Post)
    (h : s.posts.find? (fun q => q.id == id) = some p) :
    rootPost id s = (some (forceImage p),
      { s with posts := setFirst (fun q => q.id == id) forceImage s.posts }) := by
  unfold rootPost
  rw [h]

/-- Claim C1, counterexample: `addPost` with image "custom.png" followed
by `post(newId)` returns a post whose image is the forced fallback URL,
not the input's image, so the returned entity does not equal the input
in all fields. -/
theorem c1_counterexample :
    ((rootPost 1 (addPost ⟨1, "T", "B", some "custom.png"⟩ "t0"
        (Store.mk [uA] [] [])).2).1).map Post.image
      = some (some fallbackImage)
    ∧ (PostInput.mk 1 "T" "B" (some "custom.png")).image = some "custom.png"
    ∧ some fallbackImage ≠ (some "custom.png" : Option String) := by
  refine ⟨by decide, by decide, by decide⟩

/-- Claim C1, amended: when no stored post already has id
`posts.length + 1`, `addPost` followed immediately by `post(newId)`
returns a post whose title, text and authorId equal the input's, with
the assigned id `posts.length + 1` and the creation timestamp, but whose
image is the forced fallback URL regardless of the input's image; the
store's post count after `addPost` is exactly one greater than before. -/
theorem c1_addPost_roundtrip (s : Store) (inp : PostInput) (now : String)
    (hfresh : ∀ p ∈ s.posts, p.id ≠ s.posts.length + 1) :
    ∃ q, (addPost inp now s).1 = some q
      ∧ (rootPost (s.posts.length + 1) (addPost inp now s).2).1 = some q
      ∧ q.id = s.posts.length + 1 ∧ q.title = inp.title ∧ q.text = inp.text
      ∧ q.authorId = inp.authorId ∧ q.createdAt = now
      ∧ q.image = some fallbackImage
      ∧ (addPost inp now s).2.posts.length = s.posts.length + 1 := by
  set n := s.posts.length + 1 with hn
  set np : Post := ⟨n, inp.title, inp.text, inp.authorId, inp.image, now⟩ with hnp
  set s1 : Store := { s with posts := s.posts ++ [np] } with hs1
  have hnone : s.posts.find? (fun p => p.id == n) = none :=
    List.find?_eq_none.mpr (fun p hpmem => by simp [hfresh p hpmem])
  have hfind : s1.posts.find? (fun p => p.id == n) = some np := by
    show (s.posts ++ [np]).find? (fun p => p.id == n) = some np
    rw [find?_append_of_none _ _ _ hnone]
    simp [List.find?]
  have hroot := rootPost_of_find? n s1 np hfind
  refine ⟨forceImage np, ?_, ?_, rfl, rfl, rfl, rfl, rfl, rfl, ?_⟩
  · show (rootPost n s1).1 = some (forceImage np)
    rw [hroot]
  · show (rootPost n (rootPost n s1).2).1 = some (forceImage np)
    rw [rootPost_idem, hroot]
  · show (rootPost n s1).2.posts.length = n
    rw [hroot]
    show (setFirst (fun q => q.id == n) forceImage s1.posts).length = n
    rw [setFirst_length]
    show (s.posts ++ [np]).length = n
    simp [hn]

/-- Claim C1, witness: the amended round trip evaluated on a concrete
store and input with image "custom.png". -/
theorem c1_witness :
    ∃ q, (addPost ⟨1, "T", "B", some "custom.png"⟩ "t0"
        (Store.mk [uA] [] [])).1 = some q
      ∧ (rootPost 1 (addPost ⟨1, "T", "B", some "custom.png"⟩ "t0"
          (Store.mk [uA] [] [])).2).1 = some q
      ∧ q.id = 1 ∧ q.title = "T" ∧ q.text = "B" ∧ q.authorId = 1
      ∧ q.createdAt = "t0" ∧ q.image = some fallbackImage
      ∧ (addPost ⟨1, "T", "B", some "custom.png"⟩ "t0"
          (Store.mk [uA] [] [])).2.posts.length = 1 := by
  have h := c1_addPost_roundtrip (Store.mk [uA] [] [])
    ⟨1, "T", "B", some "custom.png"⟩ "t0" (by decide)
  exact h

/-- Claim C7: `addComment` for a postId with zero existing matching
comments returns the new comment (id count+1, the input's text, authorId
and postId, the creation timestamp), and a subsequent `comments(postId)`
call returns exactly that one entry. -/
theorem c7_addComment_empty (s : Store) (ci : CommentInput) (now : String)
    (h : s.comments.filter (fun c => c.postId == ci.postId) = []) :
    ∃ rc, (addComment ci now s).1 = some rc
      ∧ rc.comment = ⟨s.comments.length + 1, ci.text, ci.authorId, ci.postId, now⟩
      ∧ ((rootComments ci.postId (addComment ci now s).2).1).map
          ResolvedComment.comment = [rc.comment] := by
  set nc : Comment := ⟨s.comments.length + 1, ci.text, ci.authorId, ci.postId, now⟩
    with hnc
  set s1 : Store := { s with comments := s.comments ++ [nc] } with hs1
  have hfilter : (s.comments ++ [nc]).filter (fun c => c.postId == ci.postId)
      = [nc] := by
    rw [List.filter_append, h]
    simp [List.filter]
  have hcomm : rootComments ci.postId s1
      = ([⟨nc, (rootPost ci.postId s1).1⟩], (rootPost ci.postId s1).2) := by
    unfold rootComments
    rw [show s1.comments = s.comments ++ [nc] from rfl, hfilter]
    simp [commentsGo]
  refine ⟨⟨nc, (rootPost ci.postId s1).1⟩, ?_, rfl, ?_⟩
  · show ((rootComments ci.postId s1).1.find?
        (fun rc => rc.comment.id == nc.id)) = some ⟨nc, (rootPost ci.postId s1).1⟩
    rw [hcomm]
    simp [List.find?]
  · have hstore2 : (addComment ci now s).2 = (rootPost ci.postId s1).2 := by
      show (rootComments ci.postId s1).2 = _
      rw [hcomm]
    rw [hstore2]
    unfold rootComments
    rw [show (rootPost ci.postId s1).2.comments = s.comments ++ [nc] from
      rootPost_comments _ _, hfilter]
    exact commentsGo_fst_map _ _ _

/-- Claim C7, witness: the §8 seeded scenario — 1 user (id 1), 1 post
(id 1, authorId 1), 0 comments; `addComment({authorId:1, postId:1,
text:"hi"})` returns a comment with id 1, text "hi", postId 1, and
`comments(1)` afterwards returns exactly that one entry. -/
theorem c7_witness :
    ∃ rc, (addComment ⟨1, 1, "hi"⟩ "t0" seedStore).1 = some rc
      ∧ rc.comment = ⟨1, "hi", 1, 1, "t0"⟩
      ∧ ((rootComments 1 (addComment ⟨1, 1, "hi"⟩ "t0" seedStore).2).1).map
          ResolvedComment.comment = [rc.comment] := by
  have h := c7_addComment_empty seedStore ⟨1, 1, "hi"⟩ "t0" (by decide)
  exact h
